import Mathlib

/-!
Verification of the flex_analyzer ensemble-analysis engine
(src/python-engine/src/flex_analyzer) against its design document.

The Python modules are shallowly embedded: coordinates and tabular cell
values are exact rationals, `numpy` float cells that may be NaN or ±inf
are the sum type `Fval`, pandas tables are lists of rows, and functions
that raise are `Option`/`Except` valued.  Each embedded definition keeps
the name of the source function it translates.
-/

namespace FlexAnalyzer

/-- A float-valued table cell: NaN, +inf, -inf, or a finite value
(modelled as an exact rational). -/
inductive Fval
  | nan
  | inf
  | ninf
  | num (q : ℚ)
deriving DecidableEq

/-- The finite payload of a cell, if any (`np.isfinite` filter). -/
def numVal : Fval → Option ℚ
  | .num q => some q
  | _ => none

/-- `np.rint`: round half to even.  Embeds the rounding used by
`distance.calculat` (distance.py line 30). -/
def rint (x : ℚ) : ℤ :=
  if x - ⌊x⌋ < 1/2 then ⌊x⌋
  else if 1/2 < x - ⌊x⌋ then ⌊x⌋ + 1
  else if ⌊x⌋ % 2 = 0 then ⌊x⌋ else ⌊x⌋ + 1

/-- A Cartesian coordinate triple. -/
abbrev Vec3 : Type := ℚ × ℚ × ℚ

/-- The integer `Σ (rint (1000·Δc))²` computed inside `calculat`
(distance.py lines 29-31): difference, times 1000, `np.rint`, squares, sum. -/
def calculatSq (atom1 atom2 : Vec3) : ℤ :=
  (rint ((atom1.1 - atom2.1) * 1000)) ^ 2
    + (rint ((atom1.2.1 - atom2.2.1) * 1000)) ^ 2
    + (rint ((atom1.2.2 - atom2.2.2) * 1000)) ^ 2

/-- `distance.calculat` (distance.py lines 10-33): `dis = sqrt(Σ rint(1000·Δ)²)`,
returned as `dis / 1000`.  Note: the norm itself is *not* rounded. -/
noncomputable def calculat (atom1 atom2 : Vec3) : ℝ :=
  Real.sqrt (calculatSq atom1 atom2) / 1000

/-- Modelled from the spec (testable property 8.3): the claimed formula
`d = round(‖round(1000·Δ)‖₂) / 1000`, with an outer rounding applied to
the Euclidean norm before the division.  Written only to be compared with
`calculat`, the definition embedded from the source. -/
noncomputable def specPairDistance (atom1 atom2 : Vec3) : ℝ :=
  ((round (Real.sqrt (calculatSq atom1 atom2)) : ℤ) : ℝ) / 1000

/-- `itertools.combinations(range n, 2)`: the pairs `(i, j)` with
`i < j < n` in lexicographic order (distance.py line 85). -/
def pairIndices (n : ℕ) : List (ℕ × ℕ) :=
  (List.range n).flatMap fun i =>
    (List.range (n - i - 1)).map fun k => (i, i + 1 + k)

/-- `distance.calculat_vectorized` (distance.py lines 186-207) restricted to
one structure: for every pair `i < j` it forms the coordinate difference,
multiplies by 1000, applies `np.rint` componentwise, and returns
`sqrt(Σ diff²)/1000`; the upper triangle is read off in `(i, j)` order. -/
noncomputable def calculat_vectorized (atoms : List Vec3) : List ℝ :=
  (pairIndices atoms.length).map fun p =>
    Real.sqrt
      (((rint (((atoms.getD p.1 (0, 0, 0)).1 - (atoms.getD p.2 (0, 0, 0)).1) * 1000)) ^ 2
          + (rint (((atoms.getD p.1 (0, 0, 0)).2.1 - (atoms.getD p.2 (0, 0, 0)).2.1) * 1000)) ^ 2
          + (rint (((atoms.getD p.1 (0, 0, 0)).2.2 - (atoms.getD p.2 (0, 0, 0)).2.2) * 1000)) ^ 2
          : ℤ))
      / 1000

/-! ### score.py -/

/-- `pd.Series.replace([np.inf, -np.inf], np.nan)` on one cell
(score.py line 110). -/
def replaceInfWithNan : Fval → Fval
  | .inf => .nan
  | .ninf => .nan
  | v => v

/-- `score._get_valid_scores` (score.py lines 100-120): replace ±inf with
NaN, drop NaN, and fail when nothing remains. -/
def getValidScores (scores : List Fval) : Option (List ℚ) :=
  let s := (scores.map replaceInfWithNan).filterMap numVal
  if s = [] then none else some s

/-- Arithmetic mean of a list of rationals (`pd.Series.mean`). -/
def meanQ (l : List ℚ) : ℚ := l.sum / (l.length : ℚ)

/-- `score.compute_umf` (score.py lines 69-131): the mean of the valid
scores, via `compute_pair_statistics`; `none` models the raised
no-valid-scores `RuntimeError`. -/
def compute_umf (scores : List Fval) : Option ℚ :=
  (getValidScores scores).map meanQ

/-- The spec-side population for the UMF: the finite scores, kept in order. -/
def finiteScores (scores : List Fval) : List ℚ := scores.filterMap numVal

/-! ### cis.py -/

/-- One pandas cell compared with `<= cis_threshold`: false for NaN,
false for `+inf`, true for `-inf`. -/
def cellLe (tau : ℚ) : Fval → Bool
  | .num q => q ≤ tau
  | .ninf => true
  | _ => false

/-- One pandas cell compared with `> cis_threshold`: false for NaN,
true for `+inf`, false for `-inf`. -/
def cellGt (tau : ℚ) : Fval → Bool
  | .num q => tau < q
  | .inf => true
  | _ => false

/-- `cis.detect_cis_pairs` (cis.py lines 9-97), restricted to the two
counters; a row is the list of per-chain distance cells of one pair.
Rows with some cell `<= tau` are collected (the per-column query plus
dedup/sort is row-membership), then `cis_num` counts collected rows with
`trans_cnt == 0` and `mix` those with `cis_cnt >= 1` and `trans_cnt >= 1`;
the empty-collection early return yields `(0, 0)`. -/
def detect_cis_pairs (rows : List (List Fval)) (tau : ℚ) : ℕ × ℕ :=
  let cisIndex := (List.range rows.length).filter fun k => (rows.getD k []).any (cellLe tau)
  if cisIndex = [] then (0, 0)
  else
    let cisDist := cisIndex.map fun k => rows.getD k []
    let cisNum := (cisDist.filter fun r => r.countP (cellGt tau) = 0).length
    let mix := (cisDist.filter fun r =>
      decide (1 ≤ r.countP (cellLe tau)) && decide (1 ≤ r.countP (cellGt tau))).length
    (cisNum, mix)

/-! ### sequence.py and the alignment step of pipelines/dsa_pipeline.py -/

/-- The aligned sequence table fed to `sort_sequence`: the declared number
of PDB/chain columns, and one row per residue holding the UniProt residue
token and the per-chain entries (`none` = NaN). -/
structure SeqTable where
  numChains : ℕ
  rows : List (String × List (Option String))
deriving DecidableEq

/-- Python `int()` applied to a rational: truncation toward zero. -/
def pyInt (q : ℚ) : ℤ := if 0 ≤ q then ⌊q⌋ else ⌈q⌉

/-- `threshold = int(num_structures * seq_ratio)` (sequence.py line 207). -/
def trimThreshold (numStructures : ℕ) (sr : ℚ) : ℤ :=
  pyInt ((numStructures : ℚ) * sr)

/-- `df.iloc[:, 1:].count(axis=1)` for one row: the number of non-missing
chain entries. -/
def rowNonMissing (r : String × List (Option String)) : ℕ :=
  (r.2.filterMap id).length

/-- The row-retention test of `sort_sequence` (sequence.py line 213):
keep the row when its non-missing count reaches the threshold. -/
def keepRow (numStructures : ℕ) (sr : ℚ) (r : String × List (Option String)) : Bool :=
  trimThreshold numStructures sr ≤ (rowNonMissing r : ℤ)

/-- `sequence.sort_sequence` (sequence.py lines 196-226): with no chain
columns the table is returned unchanged; otherwise rows failing the
threshold are dropped and an empty result raises (`.error`). -/
def sort_sequence (t : SeqTable) (sr : ℚ) : Except String SeqTable :=
  if t.numChains = 0 then .ok t
  else
    let kept := t.rows.filter (keepRow t.numChains sr)
    if kept.isEmpty then .error "no residues remain after seq_ratio filtering"
    else .ok ⟨t.numChains, kept⟩

/-- Step 4 of `run_dsa_pipeline` (dsa_pipeline.py lines 294-302):
`sort_sequence`, then `num_chains < 2` raises. -/
def pipelineAlignStep (t : SeqTable) (sr : ℚ) : Except String SeqTable :=
  match sort_sequence t sr with
  | .error e => .error e
  | .ok ts =>
      if ts.numChains < 2 then .error "Less than 2 chains after trimming. Cannot proceed."
      else .ok ts

/-! ### cif_data.py -/

/-- One `_struct_ref_seq_dif` row: chain id, structure-side residue
number, reference-side residue number, lower-cased detail token. -/
structure DifRow where
  strand : String
  seqNum : String
  dbSeqNum : String
  details : String
deriving DecidableEq

/-- The detail filter of `CifData.__init__` (cif_data.py lines 101-105):
rows whose detail is in the literal list are removed.  The fourth
list entry is the source's exact (misspelled) string. -/
def difFilter (rows : List DifRow) : List DifRow :=
  rows.filter fun r =>
    !(["expression tag", "linker", "conflict", "microgeterogeneity"].contains r.details)

/-- One `_struct_ref_seq` row: chain id and upper-cased database
accession. -/
structure RefSeqRow where
  strand : String
  accession : String
deriving DecidableEq

/-- The classification labels returned by `CifData.mutationjudge`. -/
inductive MutClass
  | normal
  | substitution
  | chimera
  | delins
  | mismatch
deriving DecidableEq

/-- `len(lst) != len(set(lst))`: the list has a duplicate. -/
def hasDup (l : List String) : Bool := !(decide l.Nodup)

/-- `unim_pd.duplicated().sum() != 0`: some (strand, accession) row
occurs twice. -/
def hasDupRows (l : List RefSeqRow) : Bool := !(decide l.Nodup)

/-- `CifData.mutationjudge` (cif_data.py lines 191-256), with the parsed
`struct_ref_seq` table, the already-filtered `struct_ref_seq_dif`
table, and the query UniProt ids as inputs.  The source's branch order is
kept exactly: mismatch, duplicated-row chimera, empty-dif normal,
engineered-mutation substitution, microheterogeneity normal, strand-list
chimera, per-chain duplicate delins, and a final substitution default. -/
def mutationjudge (refSeq : List RefSeqRow) (dif : List DifRow)
    (uniprotids : List String) : MutClass :=
  let unim := refSeq.filter fun r => uniprotids.contains r.accession
  if unim.isEmpty then .mismatch
  else if hasDupRows unim then .chimera
  else
    let mId := unim.map (·.strand)
    let mdif := dif.filter fun r => mId.contains r.strand
    if mdif.isEmpty then .normal
    else
      let details := mdif.map (·.details)
      if details.contains "engineered mutation" then .substitution
      else if details.contains "microheterogeneity" then .normal
      else if hasDup (refSeq.map (·.strand)) then .chimera
      else if mId.any (fun i =>
          let chainRows := mdif.filter fun r => r.strand = i
          hasDup (chainRows.map (·.seqNum)) || hasDup (chainRows.map (·.dbSeqNum))) then
        .delins
      else .substitution

/-! ### heatmap.py and per_residue.py -/

/-- One row of the score table: the 1-based residue indices parsed from
the `"i, j"` label column and the `score` cell. -/
structure PairRow where
  i : ℕ
  j : ℕ
  score : Fval
deriving DecidableEq

/-- `n_residues = int(ij_arr.max())` (heatmap.py line 18). -/
def hmSize (rows : List PairRow) : ℕ :=
  rows.foldl (fun m t => max m (max t.i t.j)) 0

/-- One assignment `heatmap[r, c] = v` on a list-of-lists matrix;
out-of-range writes are dropped, as `List.set` is then the identity. -/
def setCell (m : List (List Fval)) (r c : ℕ) (v : Fval) : List (List Fval) :=
  m.set r ((m.getD r []).set c v)

/-- `heatmap.generate_heatmap` (heatmap.py lines 12-33): an `n × n`
all-NaN matrix, then one write `heatmap[i-1, j-1] = s` per score row, in
order.  The symmetric write is absent in the source (commented out). -/
def generate_heatmap (rows : List PairRow) : List (List Fval) :=
  rows.foldl (fun m t => setCell m (t.i - 1) (t.j - 1) t.score)
    (List.replicate (hmSize rows) (List.replicate (hmSize rows) Fval.nan))

/-- `heatmap.heatmap_to_list` (heatmap.py lines 36-43): NaN becomes
`none` (JSON null). -/
def heatmap_to_list (m : List (List Fval)) : List (List (Option Fval)) :=
  m.map fun row => row.map fun v => if v = Fval.nan then none else some v

/-- Read one matrix cell (`heatmap[r, c]`); the NaN default only shows
through on out-of-range access. -/
def hmGet (m : List (List Fval)) (r c : ℕ) : Fval :=
  (m.getD r []).getD c Fval.nan

/-- `per_residue.per_residue_scores_fast` (per_residue.py lines 47-73):
for each 0-based index, the mean of the finite scores of the pairs having
`idx + 1` as an endpoint, NaN (`none`) when there are none. -/
def per_residue_scores_fast (rows : List PairRow) (numResidues : ℕ) : List (Option ℚ) :=
  (List.range numResidues).map fun idx =>
    let valid := (rows.filter fun r => r.i = idx + 1 || r.j = idx + 1).filterMap
      fun r => numVal r.score
    if valid.isEmpty then none else some (meanQ valid)

/-- Step 10-11 of `run_dsa_pipeline` (dsa_pipeline.py lines 424-436): the
per-residue scores packaged into the result record, with
`float(res_score) if not pd.isna(res_score) else 0.0`. -/
def resultPerResidueScores (rows : List PairRow) (numResidues : ℕ) : List ℚ :=
  (per_residue_scores_fast rows numResidues).map fun o => o.getD 0

/-! ### Helper lemmas -/

/-- Replacing ±inf by NaN before dropping non-numbers keeps exactly the
finite cells. -/
lemma filterMap_numVal_map_replaceInf (scores : List Fval) :
    (scores.map replaceInfWithNan).filterMap numVal = scores.filterMap numVal := by
  induction scores with
  | nil => rfl
  | cons a tl ih => cases a <;> simp [replaceInfWithNan, numVal, ih]

/-! ### C4 -/

/-- C4: `compute_umf` fails exactly when no score cell is finite, and
otherwise returns the arithmetic mean of the finite score cells. -/
theorem C4_umf_is_mean_of_finite_scores (scores : List Fval) :
    (finiteScores scores = [] → compute_umf scores = none)
    ∧ (finiteScores scores ≠ [] →
        compute_umf scores = some (meanQ (finiteScores scores))) := by
  have key : compute_umf scores
      = if finiteScores scores = [] then none else some (meanQ (finiteScores scores)) := by
    unfold compute_umf getValidScores finiteScores
    rw [filterMap_numVal_map_replaceInf]
    by_cases h : scores.filterMap numVal = [] <;> simp [h]
  constructor <;> intro h <;> rw [key] <;> simp [h]

/-- Concrete input for the C4 witness. -/
def c4scores : List Fval := [Fval.nan, Fval.inf, Fval.ninf, Fval.num 3, Fval.num 5]

/-- C4 witness: on a row set with two finite scores among NaN/±inf cells,
the UMF is their mean. -/
theorem C4_umf_is_mean_of_finite_scores_witness :
    compute_umf c4scores = some (meanQ (finiteScores c4scores)) :=
  (C4_umf_is_mean_of_finite_scores c4scores).2 (fun h => List.noConfusion h)

/-! ### C8 -/

/-- The annotation row the C8 counterexample feeds the constructor. -/
def c8row : DifRow := ⟨"A", "100", "100", "microheterogeneity"⟩

/-- C8 counterexample: a row whose detail is `microheterogeneity` — one of
the four tokens the claim says are dropped — survives the constructor's
detail filter, because the source's literal list misspells that token. -/
theorem C8_counterexample :
    difFilter [c8row] = [c8row] ∧ c8row.details = "microheterogeneity" := by
  constructor
  · decide
  · rfl

/-- C8 amended: the filter drops exactly the details `expression tag`,
`linker`, `conflict` and the misspelled `microgeterogeneity`; rows whose
detail is the real token `microheterogeneity` are retained. -/
theorem C8_amended_detail_filter (rows : List DifRow) (r : DifRow) :
    r ∈ difFilter rows ↔
      r ∈ rows ∧ r.details ≠ "expression tag" ∧ r.details ≠ "linker"
        ∧ r.details ≠ "conflict" ∧ r.details ≠ "microgeterogeneity" := by
  simp [difFilter, List.mem_filter, and_assoc]

/-! ### C6 -/

/-- The trimming-scenario table for C6: three chains, four residues, the
second residue missing in chain 2. -/
def c6table : SeqTable :=
  ⟨3, [("ALA", [some "ALA", some "ALA", some "ALA"]),
       ("VAL", [some "VAL", none, some "VAL"]),
       ("LEU", [some "LEU", some "LEU", some "LEU"]),
       ("SER", [some "SER", some "SER", some "SER"])]⟩

/-- C6 counterexample: with `K = 3` and the default `seq_ratio = 0.9`, the
row with two of three chains present is kept (`int(3·0.9) = 2 ≤ 2`),
so trimming returns all four rows — the claim says that row is dropped. -/
theorem C6_counterexample :
    sort_sequence c6table (9/10) = Except.ok c6table := by
  have h : trimThreshold 3 (9/10) = 2 := by
    norm_num [trimThreshold, pyInt]
  have hall : c6table.rows.filter (keepRow 3 (9/10)) = c6table.rows := by
    rw [List.filter_eq_self]
    intro a ha
    fin_cases ha <;> simp [keepRow, h, rowNonMissing]
  unfold sort_sequence
  rw [show c6table.numChains = 3 from rfl, hall]
  rfl

/-- C6 amended: for `K = 3` and a row with exactly two non-missing chain
entries, the row is dropped iff `2 < int(3·seq_ratio)`, i.e. iff
`seq_ratio ≥ 1`; with the default `0.9` the row survives. -/
theorem C6_amended_trim_two_of_three (sr : ℚ) (r : String × List (Option String))
    (hsr : 0 ≤ sr) (hr : rowNonMissing r = 2) :
    keepRow 3 sr r = false ↔ 1 ≤ sr := by
  have h0 : (0:ℚ) ≤ ((3:ℕ):ℚ) * sr := by positivity
  simp only [keepRow, trimThreshold, pyInt, if_pos h0, hr, decide_eq_false_iff_not, not_le]
  rw [show ((2:ℕ):ℤ) = 2 from rfl]
  constructor
  · intro h
    have h3 : ((3:ℤ):ℚ) ≤ ((3:ℕ):ℚ) * sr := Int.le_floor.mp (by omega)
    push_cast at h3
    linarith
  · intro h
    have h3 : ((3:ℤ):ℚ) ≤ ((3:ℕ):ℚ) * sr := by push_cast; linarith
    have h4 := Int.le_floor.mpr h3
    omega

/-- C6 witness: at `seq_ratio = 1` a two-of-three row is dropped. -/
theorem C6_amended_trim_two_of_three_witness :
    keepRow 3 1 ("VAL", [some "VAL", none, some "VAL"]) = false :=
  (C6_amended_trim_two_of_three 1 ("VAL", [some "VAL", none, some "VAL"])
    zero_le_one (by decide)).mpr le_rfl

/-! ### C5 -/

/-- The trimmed-table shape for the C5 counterexample: two chain columns,
two complete residue rows. -/
def c5table : SeqTable :=
  ⟨2, [("ALA", [some "ALA", some "ALA"]), ("VAL", [some "VAL", some "VAL"])]⟩

/-- C5 counterexample: with `K = 2 < 3` chain columns and `N = 2` rows the
alignment step succeeds — the claim says `K < 3` is a terminal error. -/
theorem C5_counterexample :
    pipelineAlignStep c5table (9/10) = Except.ok c5table
      ∧ c5table.numChains < 3 ∧ 2 ≤ c5table.rows.length := by
  refine ⟨?_, by decide, by decide⟩
  have h : trimThreshold 2 (9/10) = 1 := by
    norm_num [trimThreshold, pyInt]
  have hall : c5table.rows.filter (keepRow 2 (9/10)) = c5table.rows := by
    rw [List.filter_eq_self]
    intro a ha
    fin_cases ha <;> simp [keepRow, h, rowNonMissing]
  unfold pipelineAlignStep sort_sequence
  rw [show c5table.numChains = 2 from rfl, hall]
  rfl

/-- C5 amended: the alignment stage succeeds iff at least 2 chain columns
are present and at least one residue row survives trimming; the errors
actually raised are `N = 0` after trimming (in `sort_sequence`) and
`K < 2` (in the pipeline), not `N < 2` or `K < 3`. -/
theorem C5_amended_align_failure (t : SeqTable) (sr : ℚ) :
    (∃ ts, pipelineAlignStep t sr = Except.ok ts) ↔
      2 ≤ t.numChains ∧ t.rows.filter (keepRow t.numChains sr) ≠ [] := by
  have hsort : sort_sequence t sr =
      if t.numChains = 0 then .ok t
      else if (t.rows.filter (keepRow t.numChains sr)).isEmpty
        then .error "no residues remain after seq_ratio filtering"
        else .ok ⟨t.numChains, t.rows.filter (keepRow t.numChains sr)⟩ := rfl
  unfold pipelineAlignStep
  rw [hsort]
  by_cases h0 : t.numChains = 0
  · rw [if_pos h0]
    simp [h0]
  · rw [if_neg h0]
    by_cases he : (t.rows.filter (keepRow t.numChains sr)).isEmpty = true
    · rw [if_pos he]
      rw [List.isEmpty_iff] at he
      simp [he]
    · rw [if_neg he]
      rw [List.isEmpty_iff] at he
      by_cases h2 : t.numChains < 2
      · have h2n : ¬ (2 ≤ t.numChains) := by omega
        simp [h2, h2n]
      · have h2y : 2 ≤ t.numChains := by omega
        simp [h2, h2y, he]

/-! ### C9 -/

/-- The score table for the C9 counterexample: the single pair (1, 2)
with a NaN score. -/
def c9rows : List PairRow := [⟨1, 2, Fval.nan⟩]

/-- C9 counterexample: residue 1 has no pair with a finite score, yet the
result record reports the numeric value 0 for it (the claim says the
value is missing, not numeric). -/
theorem C9_counterexample :
    resultPerResidueScores c9rows 2 = [0, 0]
      ∧ ((c9rows.filter fun r => r.i = 1 || r.j = 1).filterMap
          fun r => numVal r.score) = [] :=
  ⟨rfl, rfl⟩

/-- C9 amended: the internal per-residue value is the mean of the finite
scores over the pairs having `idx + 1` as an endpoint, and is missing when
there are none; the packaged result record replaces that missing value by
the numeric 0. -/
theorem C9_amended_per_residue (rows : List PairRow) (n idx : ℕ) (h : idx < n) :
    (((rows.filter fun r => r.i = idx + 1 || r.j = idx + 1).filterMap
          fun r => numVal r.score) ≠ [] →
        (per_residue_scores_fast rows n).getD idx none
            = some (meanQ ((rows.filter fun r => r.i = idx + 1 || r.j = idx + 1).filterMap
                fun r => numVal r.score))
          ∧ (resultPerResidueScores rows n).getD idx 0
            = meanQ ((rows.filter fun r => r.i = idx + 1 || r.j = idx + 1).filterMap
                fun r => numVal r.score))
    ∧ (((rows.filter fun r => r.i = idx + 1 || r.j = idx + 1).filterMap
          fun r => numVal r.score) = [] →
        (per_residue_scores_fast rows n).getD idx none = none
          ∧ (resultPerResidueScores rows n).getD idx 0 = 0) := by
  set valid := (rows.filter fun r => r.i = idx + 1 || r.j = idx + 1).filterMap
      (fun r => numVal r.score) with hvalid
  have h1 : (per_residue_scores_fast rows n).getD idx none
      = if valid.isEmpty then none else some (meanQ valid) := by
    unfold per_residue_scores_fast
    rw [List.getD_eq_getElem?_getD, List.getElem?_map, List.getElem?_range h]
    simp [hvalid]
  have h2 : (resultPerResidueScores rows n).getD idx 0
      = (if valid.isEmpty then (none : Option ℚ) else some (meanQ valid)).getD 0 := by
    unfold resultPerResidueScores per_residue_scores_fast
    rw [List.map_map, List.getD_eq_getElem?_getD, List.getElem?_map, List.getElem?_range h]
    simp [hvalid, Function.comp]
  constructor <;> intro hv
  · have hne : valid.isEmpty = false := by simpa [List.isEmpty_iff] using hv
    exact ⟨by rw [h1, hne]; rfl, by rw [h2, hne]; rfl⟩
  · have hee : valid.isEmpty = true := by simpa [List.isEmpty_iff] using hv
    exact ⟨by rw [h1, hee]; rfl, by rw [h2, hee]; rfl⟩

/-- Concrete input for the C9 witness. -/
def c9wrows : List PairRow := [⟨1, 2, Fval.num 4⟩]

/-- C9 witness: residue 1 of a one-pair table with a finite score gets
that pair's mean both internally and in the result record. -/
theorem C9_amended_per_residue_witness :
    (per_residue_scores_fast c9wrows 2).getD 0 none
        = some (meanQ ((c9wrows.filter fun r => r.i = 0 + 1 || r.j = 0 + 1).filterMap
            fun r => numVal r.score))
      ∧ (resultPerResidueScores c9wrows 2).getD 0 0
        = meanQ ((c9wrows.filter fun r => r.i = 0 + 1 || r.j = 0 + 1).filterMap
            fun r => numVal r.score) :=
  (C9_amended_per_residue c9wrows 2 0 (by decide)).1 (fun hh => List.noConfusion hh)

/-! ### C7 -/

/-- Indexing `List.range` over a list and filtering is filtering the list. -/
lemma filter_range_getD {α : Type} (l : List α) (d : α) (p : α → Bool) :
    ((List.range l.length).filter fun k => p (l.getD k d)).map (fun k => l.getD k d)
      = l.filter p := by
  induction l with
  | nil => rfl
  | cons a tl ih =>
    rw [List.length_cons, List.range_succ_eq_map]
    rw [List.filter_cons]
    by_cases h : p ((a :: tl).getD 0 d) = true
    · rw [if_pos h]
      rw [List.map_cons]
      rw [List.filter_map, List.map_map]
      simp only [Function.comp_def, List.getD_cons_succ, List.getD_cons_zero] at *
      rw [ih, List.filter_cons, if_pos (by simpa using h)]
    · rw [if_neg h]
      rw [List.filter_map, List.map_map]
      simp only [Function.comp_def, List.getD_cons_succ, List.getD_cons_zero] at *
      rw [ih, List.filter_cons, if_neg (by simpa using h)]

/-- `(row <= τ).sum() == 0`-style test: a zero count is the negated `any`. -/
lemma decide_countP_eq_zero (r : List Fval) (g : Fval → Bool) :
    decide (r.countP g = 0) = !(r.any g) := by
  by_cases h : r.any g = true
  · rw [List.any_eq_true] at h
    obtain ⟨a, ha, hga⟩ := h
    have hpos := List.countP_pos_iff.mpr ⟨a, ha, hga⟩
    have hne : r.countP g ≠ 0 := by omega
    simp [List.any_eq_true, hne]
    exact ⟨a, ha, hga⟩
  · have h' : r.any g = false := by simpa using h
    have hz : r.countP g = 0 := by
      rw [List.countP_eq_zero]
      intro a ha
      rw [List.any_eq_false] at h'
      exact h' a ha
    simp [h', hz]

/-- A positive count is `any`. -/
lemma decide_one_le_countP (r : List Fval) (g : Fval → Bool) :
    decide (1 ≤ r.countP g) = r.any g := by
  have := decide_countP_eq_zero r g
  by_cases h : r.countP g = 0
  · have h' : ¬ (1 ≤ r.countP g) := by omega
    simp [h, h'] at this ⊢
    simpa using this
  · have h' : 1 ≤ r.countP g := by omega
    simp [h, h'] at this ⊢
    simpa using this

/-- C7: the cis detector returns `cis_num` = number of pair rows with some
cell `≤ τ` and no cell `> τ`, and `mix` = number of pair rows with both a
cell `≤ τ` and a cell `> τ` (missing cells count for neither side); on
the scenario row `{3.2, 3.4, 3.6, 3.2, 5.0}` with `τ = 3.8` this gives
`cis_num = 0` and `mix = 1`. -/
theorem C7_cis_counters (rows : List (List Fval)) (tau : ℚ) :
    (detect_cis_pairs rows tau).1
        = (rows.filter fun r => r.any (cellLe tau) && !(r.any (cellGt tau))).length
    ∧ (detect_cis_pairs rows tau).2
        = (rows.filter fun r => r.any (cellLe tau) && r.any (cellGt tau)).length
    ∧ detect_cis_pairs [[Fval.num (16/5), Fval.num (17/5), Fval.num (18/5),
        Fval.num (16/5), Fval.num 5]] (19/5) = (0, 1) := by
  have general : ∀ (rs : List (List Fval)) (t : ℚ),
      (detect_cis_pairs rs t).1
          = (rs.filter fun r => r.any (cellLe t) && !(r.any (cellGt t))).length
        ∧ (detect_cis_pairs rs t).2
          = (rs.filter fun r => r.any (cellLe t) && r.any (cellGt t)).length := by
    intro rs t
    have hdet : detect_cis_pairs rs t =
        if ((List.range rs.length).filter fun k => (rs.getD k []).any (cellLe t)) = []
        then (0, 0)
        else
          (((((List.range rs.length).filter fun k => (rs.getD k []).any (cellLe t)).map
                fun k => rs.getD k []).filter fun r =>
                  decide (r.countP (cellGt t) = 0)).length,
           ((((List.range rs.length).filter fun k => (rs.getD k []).any (cellLe t)).map
                fun k => rs.getD k []).filter fun r =>
                  decide (1 ≤ r.countP (cellLe t)) && decide (1 ≤ r.countP (cellGt t))).length) :=
      rfl
    have hmap := filter_range_getD rs [] (fun r => r.any (cellLe t))
    have hsplit1 : rs.filter (fun r => r.any (cellLe t) && !(r.any (cellGt t)))
        = (rs.filter fun r => r.any (cellLe t)).filter fun r => !(r.any (cellGt t)) := by
      rw [List.filter_filter]
      refine List.filter_congr ?_
      intro a _
      rw [Bool.and_comm]
    have hsplit2 : rs.filter (fun r => r.any (cellLe t) && r.any (cellGt t))
        = (rs.filter fun r => r.any (cellLe t)).filter fun r => r.any (cellGt t) := by
      rw [List.filter_filter]
      refine List.filter_congr ?_
      intro a _
      rw [Bool.and_comm]
    by_cases hempty :
        ((List.range rs.length).filter fun k => (rs.getD k []).any (cellLe t)) = []
    · rw [hempty] at hmap
      rw [hdet, if_pos hempty]
      rw [List.map_nil] at hmap
      constructor
      · rw [hsplit1, ← hmap]
        rfl
      · rw [hsplit2, ← hmap]
        rfl
    · rw [hdet, if_neg hempty]
      rw [hmap]
      have heq1 : (fun (r : List Fval) => decide (r.countP (cellGt t) = 0))
          = fun r => !(r.any (cellGt t)) := by
        funext r
        exact decide_countP_eq_zero r (cellGt t)
      have heq2 : (fun (r : List Fval) =>
          decide (1 ≤ r.countP (cellLe t)) && decide (1 ≤ r.countP (cellGt t)))
            = fun r => r.any (cellLe t) && r.any (cellGt t) := by
        funext r
        rw [decide_one_le_countP, decide_one_le_countP]
      constructor
      · show ((rs.filter fun r => r.any (cellLe t)).filter
            (fun r => decide (r.countP (cellGt t) = 0))).length = _
        rw [heq1, List.filter_filter]
        refine congrArg List.length (List.filter_congr ?_)
        intro a _
        cases h1 : a.any (cellLe t) <;> cases h2 : a.any (cellGt t) <;> simp [h1, h2]
      · show ((rs.filter fun r => r.any (cellLe t)).filter
            (fun r => decide (1 ≤ r.countP (cellLe t))
              && decide (1 ≤ r.countP (cellGt t)))).length = _
        rw [heq2, List.filter_filter]
        refine congrArg List.length (List.filter_congr ?_)
        intro a _
        cases h1 : a.any (cellLe t) <;> cases h2 : a.any (cellGt t) <;> simp [h1, h2]
  refine ⟨(general rows tau).1, (general rows tau).2, ?_⟩
  have g := general [[Fval.num (16/5), Fval.num (17/5), Fval.num (18/5),
      Fval.num (16/5), Fval.num 5]] (19/5)
  have hle1 : cellLe (19/5) (Fval.num (16/5)) = true := by norm_num [cellLe]
  have hgt5 : cellGt (19/5) (Fval.num 5) = true := by norm_num [cellGt]
  refine Prod.ext ?_ ?_
  · rw [g.1]
    simp [List.any_cons, hle1, hgt5]
  · rw [g.2]
    simp [List.any_cons, hle1, hgt5]

/-! ### C3 -/

/-- The chains of a structure that cross-reference one of the query
UniProt ids (the classifier's `unim_pd`). -/
def crossRefChains (refSeq : List RefSeqRow) (uniprotids : List String) : List RefSeqRow :=
  refSeq.filter fun r => uniprotids.contains r.accession

/-- The difference annotations restricted to cross-referencing chains
(the classifier's `mdif_pd`). -/
def matchedDif (refSeq : List RefSeqRow) (dif : List DifRow)
    (uniprotids : List String) : List DifRow :=
  dif.filter fun r =>
    ((crossRefChains refSeq uniprotids).map (·.strand)).contains r.strand

/-- Reference table for the C3 counterexample: one chain A mapping to P1. -/
def c3refSeq : List RefSeqRow := [⟨"A", "P1"⟩]

/-- Annotations for the C3 counterexample: two engineered-mutation rows of
chain A sharing the structure-side residue number 5. -/
def c3dif : List DifRow :=
  [⟨"A", "5", "10", "engineered mutation"⟩, ⟨"A", "5", "11", "engineered mutation"⟩]

/-- C3 counterexample: the structure-side residue numbers of chain A are
duplicated, so the claim demands `delins`, but the classifier tests
`engineered mutation` first and returns `substitution`. -/
theorem C3_counterexample :
    mutationjudge c3refSeq c3dif ["P1"] = MutClass.substitution
      ∧ hasDup (((matchedDif c3refSeq c3dif ["P1"]).filter
          fun r => r.strand = "A").map (·.seqNum)) = true
      ∧ MutClass.substitution ≠ MutClass.delins := by
  refine ⟨by decide, by decide, by decide⟩

/-- C3 amended: for a structure with cross-referencing chains, no
duplicated cross-reference row, and a nonempty remaining annotation set,
the classifier first yields `substitution` on any `engineered mutation`
detail, then `normal` on any `microheterogeneity` detail, then `chimera`
if the structure's full chain list has duplicates, then `delins` if some
cross-referencing chain has duplicated structure-side or reference-side
residue numbers, and otherwise defaults to `substitution` (not `normal`). -/
theorem C3_amended_classifier (refSeq : List RefSeqRow) (dif : List DifRow)
    (uniprotids : List String)
    (h1 : crossRefChains refSeq uniprotids ≠ [])
    (h2 : (crossRefChains refSeq uniprotids).Nodup)
    (h3 : matchedDif refSeq dif uniprotids ≠ []) :
    mutationjudge refSeq dif uniprotids =
      (if ((matchedDif refSeq dif uniprotids).map (·.details)).contains "engineered mutation"
        then MutClass.substitution
      else if ((matchedDif refSeq dif uniprotids).map (·.details)).contains "microheterogeneity"
        then MutClass.normal
      else if hasDup (refSeq.map (·.strand)) then MutClass.chimera
      else if ((crossRefChains refSeq uniprotids).map (·.strand)).any (fun i =>
          hasDup (((matchedDif refSeq dif uniprotids).filter
              fun r => r.strand = i).map (·.seqNum))
            || hasDup (((matchedDif refSeq dif uniprotids).filter
              fun r => r.strand = i).map (·.dbSeqNum)))
        then MutClass.delins
      else MutClass.substitution) := by
  have hdet : mutationjudge refSeq dif uniprotids =
      (if (crossRefChains refSeq uniprotids).isEmpty then MutClass.mismatch
       else if hasDupRows (crossRefChains refSeq uniprotids) then MutClass.chimera
       else if (matchedDif refSeq dif uniprotids).isEmpty then MutClass.normal
       else if ((matchedDif refSeq dif uniprotids).map (·.details)).contains
           "engineered mutation" then MutClass.substitution
       else if ((matchedDif refSeq dif uniprotids).map (·.details)).contains
           "microheterogeneity" then MutClass.normal
       else if hasDup (refSeq.map (·.strand)) then MutClass.chimera
       else if ((crossRefChains refSeq uniprotids).map (·.strand)).any (fun i =>
           hasDup (((matchedDif refSeq dif uniprotids).filter
               fun r => r.strand = i).map (·.seqNum))
             || hasDup (((matchedDif refSeq dif uniprotids).filter
               fun r => r.strand = i).map (·.dbSeqNum)))
         then MutClass.delins
       else MutClass.substitution) := rfl
  rw [hdet]
  rw [if_neg (by simp [List.isEmpty_iff, h1]),
    if_neg (by simp [hasDupRows, h2]),
    if_neg (by simp [List.isEmpty_iff, h3])]

/-- C3 witness: a single engineered-mutation annotation on a single
cross-referencing chain classifies per the amended precedence. -/
theorem C3_amended_classifier_witness :
    mutationjudge c3refSeq [⟨"A", "5", "10", "engineered mutation"⟩] ["P1"] =
      (if ((matchedDif c3refSeq [⟨"A", "5", "10", "engineered mutation"⟩] ["P1"]).map
            (·.details)).contains "engineered mutation"
        then MutClass.substitution
      else if ((matchedDif c3refSeq [⟨"A", "5", "10", "engineered mutation"⟩] ["P1"]).map
            (·.details)).contains "microheterogeneity"
        then MutClass.normal
      else if hasDup (c3refSeq.map (·.strand)) then MutClass.chimera
      else if ((crossRefChains c3refSeq ["P1"]).map (·.strand)).any (fun i =>
          hasDup (((matchedDif c3refSeq [⟨"A", "5", "10", "engineered mutation"⟩] ["P1"]).filter
              fun r => r.strand = i).map (·.seqNum))
            || hasDup (((matchedDif c3refSeq [⟨"A", "5", "10", "engineered mutation"⟩]
              ["P1"]).filter fun r => r.strand = i).map (·.dbSeqNum)))
        then MutClass.delins
      else MutClass.substitution) :=
  C3_amended_classifier c3refSeq [⟨"A", "5", "10", "engineered mutation"⟩] ["P1"]
    (by decide) (by decide) (by decide)

/-! ### C10 -/

/-- Half-to-even rounding commutes with negation. -/
lemma rint_neg (x : ℚ) : rint (-x) = -(rint x) := by
  rcases eq_or_ne x ((⌊x⌋ : ℤ) : ℚ) with hx | hx
  · have hfm : ⌊-x⌋ = -⌊x⌋ := by
      conv_lhs => rw [hx]
      rw [← Int.cast_neg, Int.floor_intCast]
    have h1 : x - (⌊x⌋ : ℚ) = 0 := sub_eq_zero.mpr hx
    have h2 : -x - (⌊-x⌋ : ℚ) = 0 := by
      rw [hfm]
      push_cast
      linarith [hx]
    rw [rint, rint, h1, h2, if_pos (by norm_num), if_pos (by norm_num), hfm]
  · have hlow : (⌊x⌋ : ℚ) < x := lt_of_le_of_ne (Int.floor_le x) (Ne.symm hx)
    have hhigh : x < ⌊x⌋ + 1 := Int.lt_floor_add_one x
    have hfm : ⌊-x⌋ = -⌊x⌋ - 1 := by
      rw [Int.floor_eq_iff]
      constructor
      · push_cast
        linarith
      · push_cast
        linarith
    set f : ℤ := ⌊x⌋ with hf
    have hfr : -x - (⌊-x⌋ : ℚ) = 1 - (x - f) := by
      rw [hfm]
      push_cast
      ring
    rcases lt_trichotomy (x - (f : ℚ)) (1/2) with hc | hc | hc
    · have hm : ¬ (-x - (⌊-x⌋ : ℚ) < 1/2) := by rw [hfr]; linarith
      have hm2 : 1/2 < -x - (⌊-x⌋ : ℚ) := by rw [hfr]; linarith
      rw [rint, rint, if_pos hc, if_neg hm, if_pos hm2, hfm]
      ring
    · have hm : ¬ (-x - (⌊-x⌋ : ℚ) < 1/2) := by rw [hfr]; linarith
      have hm2 : ¬ (1/2 < -x - (⌊-x⌋ : ℚ)) := by rw [hfr]; linarith
      have hx1 : ¬ (x - (f : ℚ) < 1/2) := by linarith
      have hx2 : ¬ (1/2 < x - (f : ℚ)) := by linarith
      rw [rint, rint, if_neg hm, if_neg hm2, if_neg hx1, if_neg hx2, hfm]
      by_cases hpar : f % 2 = 0
      · have hpar2 : ¬ ((-f - 1) % 2 = 0) := by omega
        rw [if_pos hpar, if_neg hpar2]
        ring
      · have hpar2 : (-f - 1) % 2 = 0 := by omega
        rw [if_neg hpar, if_pos hpar2]
        ring
    · have hm : -x - (⌊-x⌋ : ℚ) < 1/2 := by rw [hfr]; linarith
      have hx1 : ¬ (x - (f : ℚ) < 1/2) := by linarith
      rw [rint, rint, if_pos hm, if_neg hx1, if_pos hc, hfm]
      ring

/-- The rounded squared sum is symmetric in its two atoms. -/
lemma calculatSq_comm (a b : Vec3) : calculatSq a b = calculatSq b a := by
  unfold calculatSq
  rw [show (b.1 - a.1) * 1000 = -((a.1 - b.1) * 1000) by ring,
    show (b.2.1 - a.2.1) * 1000 = -((a.2.1 - b.2.1) * 1000) by ring,
    show (b.2.2 - a.2.2) * 1000 = -((a.2.2 - b.2.2) * 1000) by ring,
    rint_neg, rint_neg, rint_neg]
  ring

/-- C10: the chain-wise rounded distance is symmetric and non-negative;
half-to-even rounding commutes with negation of the componentwise
difference. -/
theorem C10_calculat_symm_nonneg (a b : Vec3) :
    calculat a b = calculat b a ∧ 0 ≤ calculat a b := by
  constructor
  · unfold calculat
    rw [calculatSq_comm]
  · exact div_nonneg (Real.sqrt_nonneg _) (by norm_num)

/-! ### C1 -/

/-- First coordinate triple of the C1 counterexample. -/
def c1a : Vec3 := (1/1000, 1/1000, 0)

/-- Second coordinate triple of the C1 counterexample. -/
def c1b : Vec3 := (0, 0, 0)

/-- C1 counterexample: at `Δ = (0.001, 0.001, 0)` the engine emits
`√2 / 1000`, whereas the claimed formula with the outer rounding of the
norm gives `round(√2)/1000`, an integer thousandth — the two differ
because `√2` is irrational. -/
theorem C1_counterexample : calculat c1a c1b ≠ specPairDistance c1a c1b := by
  have hsq : calculatSq c1a c1b = 2 := by
    have h1 : rint ((c1a.1 - c1b.1) * 1000) = 1 := by norm_num [c1a, c1b, rint]
    have h2 : rint ((c1a.2.1 - c1b.2.1) * 1000) = 1 := by norm_num [c1a, c1b, rint]
    have h3 : rint ((c1a.2.2 - c1b.2.2) * 1000) = 0 := by norm_num [c1a, c1b, rint]
    rw [calculatSq, h1, h2, h3]
    ring
  intro h
  rw [calculat, specPairDistance, hsq] at h
  have h2 : Real.sqrt 2 = ((round (Real.sqrt 2) : ℤ) : ℝ) := by
    push_cast at h
    field_simp at h
    exact_mod_cast h
  exact irrational_sqrt_two.ne_int (round (Real.sqrt 2)) h2

/-- C1 amended: the emitted distance is
`sqrt(Σ rint(1000·Δc)²) / 1000` — half-to-even rounding componentwise on
the 1000-scaled differences, then the Euclidean norm, then division by
1000, with no outer rounding of the norm; the vectorized engine computes
exactly `calculat` at every pair, so identical inputs reproduce identical
distances. -/
theorem C1_amended_distance_formula (atoms : List Vec3) (a b : Vec3) :
    calculat_vectorized atoms
        = (pairIndices atoms.length).map
            (fun p => calculat (atoms.getD p.1 (0, 0, 0)) (atoms.getD p.2 (0, 0, 0)))
      ∧ calculat a b
        = Real.sqrt (((rint ((a.1 - b.1) * 1000)) ^ 2 + (rint ((a.2.1 - b.2.1) * 1000)) ^ 2
            + (rint ((a.2.2 - b.2.2) * 1000)) ^ 2 : ℤ)) / 1000 :=
  ⟨rfl, rfl⟩

/-! ### C2 -/

/-- `hmGet` through optional indexing. -/
lemma hmGet_def (m : List (List Fval)) (r c : ℕ) :
    hmGet m r c = ((m[r]?.getD [])[c]?).getD Fval.nan := by
  unfold hmGet
  rw [List.getD_eq_getD_get?, List.getD_eq_getD_get?, List.get?_eq_getElem?,
    List.get?_eq_getElem?]

/-- Cells other than the written one are unchanged by `setCell`. -/
lemma hmGet_setCell_ne (m : List (List Fval)) (r c r' c' : ℕ) (v : Fval)
    (h : ¬(r' = r ∧ c' = c)) : hmGet (setCell m r' c' v) r c = hmGet m r c := by
  rw [hmGet_def, hmGet_def]
  unfold setCell
  by_cases hr : r' = r
  · subst hr
    have hc : c' ≠ c := fun hcc => h ⟨rfl, hcc⟩
    rw [List.getElem?_set_self']
    cases hm : m[r']? with
    | none => simp
    | some row =>
      have hrow : m.getD r' [] = row := by
        rw [List.getD_eq_getD_get?, List.get?_eq_getElem?, hm]
        rfl
      simp only [hrow, Option.map_eq_map, Option.map_some', Option.getD_some, Function.const]
      rw [List.getElem?_set_ne hc]
  · rw [List.getElem?_set_ne hr]

/-- The matrix is rectangular `n × n`. -/
def rectM (n : ℕ) (m : List (List Fval)) : Prop :=
  m.length = n ∧ ∀ r, r < n → (m.getD r []).length = n

/-- `setCell` preserves rectangularity. -/
lemma rectM_setCell (n : ℕ) (m : List (List Fval)) (r c : ℕ) (v : Fval)
    (h : rectM n m) : rectM n (setCell m r c v) := by
  obtain ⟨hlen, hrows⟩ := h
  refine ⟨by rw [setCell, List.length_set, hlen], ?_⟩
  intro r' hr'
  unfold setCell
  rw [List.getD_eq_getD_get?, List.get?_eq_getElem?, List.getElem?_set]
  by_cases hrr : r = r'
  · subst hrr
    have hin : r < m.length := by omega
    have hif : (if r = r then if r < m.length then some ((m.getD r []).set c v) else none
        else m[r]?) = some ((m.getD r []).set c v) := by simp [hin]
    rw [hif]
    simp only [Option.getD_some, List.length_set]
    exact hrows r hr'
  · rw [if_neg hrr, ← List.get?_eq_getElem?, ← List.getD_eq_getD_get?]
    exact hrows r' hr'

/-- In-bounds writes are read back by `hmGet`. -/
lemma hmGet_setCell_eq (n : ℕ) (m : List (List Fval)) (r c : ℕ) (v : Fval)
    (h : rectM n m) (hr : r < n) (hc : c < n) :
    hmGet (setCell m r c v) r c = v := by
  obtain ⟨hlen, hrows⟩ := h
  rw [hmGet_def]
  unfold setCell
  rw [List.getElem?_set_self']
  have hin : r < m.length := by omega
  rw [List.getElem?_eq_getElem hin]
  simp only [Option.map_eq_map, Option.map_some', Option.getD_some, Function.const]
  have hclen : c < (m.getD r []).length := by rw [hrows r hr]; exact hc
  rw [List.getElem?_set_eq_of_lt _ hclen]
  rfl

/-- A fold of writes leaves a never-written cell unchanged. -/
lemma hmGet_foldl_untouched (l : List PairRow) (m : List (List Fval)) (r c : ℕ)
    (h : ∀ t ∈ l, ¬(t.i - 1 = r ∧ t.j - 1 = c)) :
    hmGet (l.foldl (fun acc t => setCell acc (t.i - 1) (t.j - 1) t.score) m) r c
      = hmGet m r c := by
  induction l generalizing m with
  | nil => rfl
  | cons hd tl ih =>
    rw [List.foldl_cons]
    rw [ih _ (fun t ht => h t (List.mem_cons.mpr (Or.inr ht)))]
    exact hmGet_setCell_ne m r c _ _ hd.score (h hd (List.mem_cons.mpr (Or.inl rfl)))

/-- A fold of writes preserves rectangularity. -/
lemma rectM_foldl (l : List PairRow) (m : List (List Fval)) (n : ℕ) (h : rectM n m) :
    rectM n (l.foldl (fun acc t => setCell acc (t.i - 1) (t.j - 1) t.score) m) := by
  induction l generalizing m with
  | nil => exact h
  | cons hd tl ih => exact ih _ (rectM_setCell n m _ _ _ h)

/-- A cell written exactly by the occurrences of one row reads that row's
score after the fold. -/
lemma hmGet_foldl_write (l : List PairRow) : ∀ (m : List (List Fval)) (n : ℕ),
    rectM n m → ∀ t : PairRow, t ∈ l →
    (t.i - 1 < n ∧ t.j - 1 < n) →
    (∀ t' ∈ l, (t'.i - 1 = t.i - 1 ∧ t'.j - 1 = t.j - 1) → t' = t) →
    hmGet (l.foldl (fun acc t => setCell acc (t.i - 1) (t.j - 1) t.score) m)
      (t.i - 1) (t.j - 1) = t.score := by
  induction l with
  | nil =>
    intro m n _ t ht
    cases ht
  | cons hd tl ih =>
    intro m n hrect t ht hbound huniq
    rw [List.foldl_cons]
    by_cases htl : t ∈ tl
    · exact ih _ n (rectM_setCell n m _ _ _ hrect) t htl hbound
        (fun t' ht' h' => huniq t' (List.mem_cons.mpr (Or.inr ht')) h')
    · have hthd : t = hd := by
        rcases List.mem_cons.mp ht with h1 | h1
        · exact h1
        · exact absurd h1 htl
      subst hthd
      rw [hmGet_foldl_untouched tl _ _ _ ?notouch]
      case notouch =>
        intro t' ht' hcell
        exact htl ((huniq t' (List.mem_cons.mpr (Or.inr ht')) hcell) ▸ ht')
      exact hmGet_setCell_eq n m _ _ t.score hrect hbound.1 hbound.2

/-- The initial all-NaN matrix reads NaN everywhere. -/
lemma hmGet_replicate (n r c : ℕ) :
    hmGet (List.replicate n (List.replicate n Fval.nan)) r c = Fval.nan := by
  unfold hmGet
  have hcget : (List.replicate n Fval.nan).getD c Fval.nan = Fval.nan := by
    rcases le_or_lt n c with hc | hc
    · exact List.getD_eq_default _ _ (by simpa using hc)
    · rw [List.getD_eq_getElem _ _ (by simpa using hc)]
      exact List.getElem_replicate _ _
  rcases le_or_lt n r with hr | hr
  · rw [List.getD_eq_default (List.replicate n (List.replicate n Fval.nan)) []
      (by simpa using hr)]
    rfl
  · rw [List.getD_eq_getElem (List.replicate n (List.replicate n Fval.nan)) []
      (by simpa using hr), List.getElem_replicate _ _]
    exact hcget

/-- The fold computing `hmSize` only grows. -/
lemma foldl_max_mono (l : List PairRow) (a : ℕ) :
    a ≤ l.foldl (fun m t => max m (max t.i t.j)) a := by
  induction l generalizing a with
  | nil => exact le_refl a
  | cons hd tl ih => exact le_trans (le_max_left _ _) (ih _)

/-- Every index mentioned by a pair row is bounded by the heatmap size. -/
lemma hmSize_bound (rows : List PairRow) (t : PairRow) (ht : t ∈ rows) :
    t.i ≤ hmSize rows ∧ t.j ≤ hmSize rows := by
  have key : ∀ (l : List PairRow) (a : ℕ), t ∈ l →
      max t.i t.j ≤ l.foldl (fun m t => max m (max t.i t.j)) a := by
    intro l
    induction l with
    | nil => intro a h; cases h
    | cons hd tl ih =>
      intro a h
      rcases List.mem_cons.mp h with rfl | htl
      · exact le_trans (le_max_right a _) (foldl_max_mono tl _)
      · exact ih _ htl
  have h := key rows 0 ht
  unfold hmSize
  exact ⟨le_trans (le_max_left _ _) h, le_trans (le_max_right _ _) h⟩

/-- The score table of the C2 counterexample: the single pair (1, 2). -/
def c2rows : List PairRow := [⟨1, 2, Fval.num 5⟩]

/-- C2 counterexample: the heatmap stores the score of pair (1, 2) only at
`H[0, 1]`; the mirror cell `H[1, 0]` stays NaN, so the packaged matrix is
not symmetric. -/
theorem C2_counterexample :
    hmGet (generate_heatmap c2rows) 0 1 = Fval.num 5
      ∧ hmGet (generate_heatmap c2rows) 1 0 = Fval.nan
      ∧ Fval.num 5 ≠ Fval.nan :=
  ⟨rfl, rfl, fun h => Fval.noConfusion h⟩

/-- C2 amended: for engine-produced pair rows (1-based indices with
`i < j`), every diagonal and below-diagonal cell of the heatmap is NaN
(serialised null), and — when the pair labels are distinct — the strictly
upper-triangular cell `H[i-1, j-1]` holds the pair's score; symmetry fails
because the mirrored write is absent. -/
theorem C2_amended_heatmap (rows : List PairRow)
    (hrows : ∀ t ∈ rows, 1 ≤ t.i ∧ t.i < t.j) :
    (∀ r c, c ≤ r → hmGet (generate_heatmap rows) r c = Fval.nan)
      ∧ ((rows.map fun t => (t.i, t.j)).Nodup →
          ∀ t ∈ rows, hmGet (generate_heatmap rows) (t.i - 1) (t.j - 1) = t.score) := by
  constructor
  · intro r c hcr
    unfold generate_heatmap
    rw [hmGet_foldl_untouched]
    · exact hmGet_replicate _ r c
    · intro t ht hcell
      obtain ⟨h1, h2⟩ := hrows t ht
      obtain ⟨hc1, hc2⟩ := hcell
      omega
  · intro hnodup t ht
    have hbound : t.i - 1 < hmSize rows ∧ t.j - 1 < hmSize rows := by
      obtain ⟨hj1, hj2⟩ := hmSize_bound rows t ht
      obtain ⟨h1, h2⟩ := hrows t ht
      omega
    unfold generate_heatmap
    refine hmGet_foldl_write rows _ (hmSize rows) ⟨List.length_replicate _ _, ?_⟩ t ht hbound ?_
    · intro r hr
      rw [List.getD_eq_getD_get?, List.get?_eq_getElem?, List.getElem?_replicate, if_pos hr]
      exact List.length_replicate _ _
    · intro t' ht' hcell
      obtain ⟨hi1, hij⟩ := hrows t ht
      obtain ⟨hi1', hij'⟩ := hrows t' ht'
      obtain ⟨hc1, hc2⟩ := hcell
      have hkey : (fun t => (t.i, t.j)) t' = (fun t => (t.i, t.j)) t := by
        have hii : t'.i = t.i := by omega
        have hjj : t'.j = t.j := by omega
        simp [hii, hjj]
      exact List.inj_on_of_nodup_map hnodup ht' ht hkey

/-- The score table for the C2 witness. -/
def c2wrows : List PairRow := [⟨1, 2, Fval.num 5⟩, ⟨1, 3, Fval.num 7⟩]

/-- C2 witness: on a two-pair table the diagonal cell reads NaN and the
upper-triangular cell of pair (1, 2) reads its score. -/
theorem C2_amended_heatmap_witness :
    hmGet (generate_heatmap c2wrows) 0 0 = Fval.nan
      ∧ hmGet (generate_heatmap c2wrows) 0 1 = Fval.num 5 := by
  have h := C2_amended_heatmap c2wrows (by decide)
  exact ⟨h.1 0 0 (le_refl 0),
    h.2 (by decide) ⟨1, 2, Fval.num 5⟩ (List.mem_cons_self _ _)⟩

end FlexAnalyzer
